import Mathlib

/-!
# URTledger inventory store — a shallow embedding of `src/db.rs` and `src/model.rs`

The store is a SQLite database behind an `Arc<Mutex<Connection>>`.  We embed the
reachable database states as a Lean structure holding each table as a list of
rows in physical (insertion) order, and each store operation as a function on
that structure, following the SQL statements of `db.rs` line by line:

* `INTEGER PRIMARY KEY` columns are SQLite rowids; with no deletes in the
  program, an automatically assigned rowid is one more than the largest rowid
  in the table (1 for an empty table) — `nextId`.
* `INSERT OR IGNORE` against a `UNIQUE(name)` column skips the row when the
  name is already present and leaves `last_insert_rowid` untouched.
* `ORDER BY id ASC` is an insertion sort on the id column (`sortById`).
* `SUM(weight)` is `NULL` over an empty row set; `COALESCE(…, 0.0)` replaces
  that `NULL` with zero (`sqlSum`).
* SQL `REAL` values (`weight`, `price`, spec values) are modelled as exact
  rationals: the claims proved here concern which rows contribute to a result,
  not float rounding.
* `specs_keys_json` holds `serde_json::to_string` of a `Vec<String>`; we model
  that codec concretely (`encKeys` / `decodeKeys`), including serde's escaping
  of `"` , `\` and control characters, because the product-type claims are
  about its round trip and its lenient-read failure mode.
* `created_at` is filled by SQLite's `CURRENT_TIMESTAMP` wall clock; no store
  operation reads it and no claim mentions it, so it is outside the embedding.
* The specs map of a batch (`HashMap<String, f64>`) is serialized by
  `serde_json::to_string`, an external call that returns a `Result`; the
  insert operation is parametrised by that serializer so that its error path
  (mapped to `ToSqlConversionFailure` in the source) stays exercisable.
-/

namespace URTledger

/-! ## JSON codec for `Vec<String>` (model of serde_json) -/

/-- Lowercase hex digit, as serde_json renders `\u00XX` escapes. -/
def hexDigitChar (n : Nat) : Char :=
  if n < 10 then Char.ofNat (48 + n) else Char.ofNat (87 + n)

/-- Value of one hex digit, accepting both cases as the JSON grammar does. -/
def hexVal (c : Char) : Option Nat :=
  if 48 ≤ c.toNat ∧ c.toNat ≤ 57 then some (c.toNat - 48)
  else if 97 ≤ c.toNat ∧ c.toNat ≤ 102 then some (c.toNat - 87)
  else if 65 ≤ c.toNat ∧ c.toNat ≤ 70 then some (c.toNat - 55)
  else none

/-- serde_json's escaping of one character inside a JSON string: `"` and `\`
get a backslash escape, the five named control characters get their short
escapes, every other control character below 0x20 becomes `\u00XX` with
lowercase hex, and all remaining characters are emitted verbatim. -/
def escChar (c : Char) : List Char :=
  if c = '"' then ['\\', '"']
  else if c = '\\' then ['\\', '\\']
  else if c.toNat = 8 then ['\\', 'b']
  else if c.toNat = 9 then ['\\', 't']
  else if c.toNat = 10 then ['\\', 'n']
  else if c.toNat = 12 then ['\\', 'f']
  else if c.toNat = 13 then ['\\', 'r']
  else if c.toNat < 32 then
    ['\\', 'u', '0', '0', hexDigitChar (c.toNat / 16), hexDigitChar (c.toNat % 16)]
  else [c]

/-- JSON string literal for `s`: quote, escaped body, quote. -/
def encStr (s : String) : List Char :=
  '"' :: (s.data.map escChar).flatten ++ ['"']

/-- Comma-separated concatenation, as the compact serde_json array body. -/
def sepComma : List (List Char) → List Char
  | [] => []
  | [l] => l
  | l :: ls => l ++ ',' :: sepComma ls

/-- Model of `serde_json::to_string::<Vec<String>>`: a compact JSON array of
string literals. Serialization of a vector of strings always succeeds. -/
def encKeys (ks : List String) : String :=
  String.mk ('[' :: sepComma (ks.map encStr) ++ [']'])

/-- JSON insignificant whitespace. -/
def isWs (c : Char) : Bool :=
  c.toNat = 32 || c.toNat = 9 || c.toNat = 10 || c.toNat = 13

/-- Drop leading JSON whitespace. -/
def skipWs : List Char → List Char
  | [] => []
  | c :: cs => if isWs c then skipWs cs else c :: cs

/-- Decoding of a two-character escape `\e` inside a JSON string. -/
def escAbbrev (e : Char) : Option Char :=
  if e = '"' then some '"'
  else if e = '\\' then some '\\'
  else if e = '/' then some '/'
  else if e = 'b' then some (Char.ofNat 8)
  else if e = 'f' then some (Char.ofNat 12)
  else if e = 'n' then some (Char.ofNat 10)
  else if e = 'r' then some (Char.ofNat 13)
  else if e = 't' then some (Char.ofNat 9)
  else none

/-- Parse the body of a JSON string (the part after the opening quote) up to
and including the closing quote; returns the decoded characters and the
remaining input. Rejects unescaped control characters, bad escapes and
unpaired surrogate code points, as serde_json's parser does. `fuel` bounds the
recursion depth; one unit is spent per decoded character. -/
def parseStrBody : Nat → List Char → Option (List Char × List Char)
  | 0, _ => none
  | _ + 1, [] => none
  | fuel + 1, c :: cs =>
    if c = '"' then some ([], cs)
    else if c = '\\' then
      match cs with
      | [] => none
      | e :: cs2 =>
        if e = 'u' then
          match cs2 with
          | h1 :: h2 :: h3 :: h4 :: cs3 =>
            match hexVal h1, hexVal h2, hexVal h3, hexVal h4 with
            | some a, some b, some c2, some d =>
              let n := a * 4096 + b * 256 + c2 * 16 + d
              if n < 55296 ∨ 57344 ≤ n then
                match parseStrBody fuel cs3 with
                | some (s, r) => some (Char.ofNat n :: s, r)
                | none => none
              else none
            | _, _, _, _ => none
          | _ => none
        else
          match escAbbrev e with
          | some c2 =>
            match parseStrBody fuel cs2 with
            | some (s, r) => some (c2 :: s, r)
            | none => none
          | none => none
    else if c.toNat < 32 then none
    else
      match parseStrBody fuel cs with
      | some (s, r) => some (c :: s, r)
      | none => none

/-- Parse one JSON string literal, opening quote included. -/
def parseJString : List Char → Option (List Char × List Char)
  | [] => none
  | c :: cs => if c = '"' then parseStrBody (cs.length + 1) cs else none

/-- Parse the items of a non-empty JSON array of strings: a string literal,
then either a comma and more items or the closing bracket. -/
def parseItems : Nat → List Char → Option (List String × List Char)
  | 0, _ => none
  | fuel + 1, cs =>
    match parseJString cs with
    | none => none
    | some (s, r) =>
      match skipWs r with
      | [] => none
      | c :: r2 =>
        if c = ',' then
          match parseItems fuel (skipWs r2) with
          | some (ss, r3) => some (String.mk s :: ss, r3)
          | none => none
        else if c = ']' then some ([String.mk s], r2)
        else none

/-- Continuation of `decodeKeys` after the opening bracket and whitespace:
either the immediate closing bracket of the empty array, or the items. -/
def decodeArrayTail : List Char → Option (List String)
  | [] => none
  | c :: r =>
    if c = ']' then (if skipWs r = [] then some [] else none)
    else
      match parseItems (r.length + 2) (c :: r) with
      | some (ss, rr) => if skipWs rr = [] then some ss else none
      | none => none

/-- Model of `serde_json::from_str::<Vec<String>>`: a JSON array of strings,
with insignificant whitespace allowed around tokens and nothing but
whitespace after the closing bracket. Any other input is a parse failure
(`none`). -/
def decodeKeys (s : String) : Option (List String) :=
  match skipWs s.data with
  | [] => none
  | c :: cs => if c = '[' then decodeArrayTail (skipWs cs) else none

/-! ## Data model -/

/-- The rusqlite error values the embedded operations can surface. -/
inductive SqlError where
  /-- `rusqlite::Error::ToSqlConversionFailure`, produced by the `map_err` on
  the serde_json serialization in `insert_inventory_batch`. -/
  | toSqlConversionFailure
  /-- A `UNIQUE` constraint violation from a plain `INSERT`. -/
  | uniqueViolation
  /-- A failed read statement (used only as a sample query failure). -/
  | queryError
deriving DecidableEq, Repr

/-- One persisted row of `inventory_batches` (`created_at` excluded, see the
file comment). -/
structure BatchRow where
  id : Int
  name : String
  type_id : Int
  grade_id : Int
  stage_id : Int
  weight : Rat
  price : Rat
  specs_json : String
deriving DecidableEq, Repr

/-- `model.rs`'s `InventoryBatch`; the `HashMap<String, f64>` specs map is
modelled as an association list. -/
structure InventoryBatch where
  name : String
  type_id : Int
  grade_id : Int
  stage_id : Int
  weight : Rat
  price : Rat
  specs : List (String × Rat)
deriving DecidableEq, Repr

/-- The database state: the four tables created by `Database::open`, each as a
list of rows in physical insertion order, the connection's foreign-key pragma
flag, and SQLite's per-connection `last_insert_rowid` register. -/
structure DB where
  foreign_keys : Bool
  stages : List (Int × String)
  grades : List (Int × String)
  product_types : List (Int × String × String)
  inventory_batches : List BatchRow
  last_insert_rowid : Int
deriving DecidableEq, Repr

/-- `Database::open` on a fresh file: turns on `PRAGMA foreign_keys`, selects
WAL journaling (no observable effect in the embedding) and creates the four
tables with `CREATE TABLE IF NOT EXISTS`, so on a pre-populated file it leaves
existing rows alone (re-opening any reachable state yields that same state). -/
def DB.openEmpty : DB :=
  { foreign_keys := true
    stages := []
    grades := []
    product_types := []
    inventory_batches := []
    last_insert_rowid := 0 }

/-- SQLite's automatic rowid for an `INTEGER PRIMARY KEY` column: one more
than the largest rowid in use, 1 for an empty table (this program never
deletes rows). -/
def nextId (ids : List Int) : Int := ids.foldl max 0 + 1

/-! ## Store operations (`impl Database` in `db.rs`) -/

/-- `INSERT INTO stages (name) VALUES (?1)` — the raw insert used by the
seeder; violates the `UNIQUE(name)` constraint if the name is present. -/
def insertStageRaw (db : DB) (nm : String) : Except SqlError DB :=
  if db.stages.any (fun r => r.2 = nm) then .error .uniqueViolation
  else
    let id := nextId (db.stages.map Prod.fst)
    .ok { db with stages := db.stages ++ [(id, nm)], last_insert_rowid := id }

/-- `INSERT INTO grades (name) VALUES (?1)` — the raw insert used by the
seeder. -/
def insertGradeRaw (db : DB) (nm : String) : Except SqlError DB :=
  if db.grades.any (fun r => r.2 = nm) then .error .uniqueViolation
  else
    let id := nextId (db.grades.map Prod.fst)
    .ok { db with grades := db.grades ++ [(id, nm)], last_insert_rowid := id }

/-- `Database::seed_defaults`: counts the stages, inserting the four default
stage names in order when the count is zero, then counts the grades,
inserting the four default grade names in order when that count is zero. -/
def seed_defaults (db : DB) : Except SqlError DB := do
  let db1 ←
    if db.stages.length = 0 then
      ["Unbucked", "Bucked", "Rolled", "Processed"].foldlM insertStageRaw db
    else .ok db
  if db1.grades.length = 0 then
    ["A", "B", "C", "Trim"].foldlM insertGradeRaw db1
  else .ok db1

/-- Repeated invocation of `seed_defaults`, for the idempotence claim. -/
def seedIter : Nat → DB → Except SqlError DB
  | 0, db => .ok db
  | n + 1, db => do seedIter n (← seed_defaults db)

/-- Type of the external specs serializer (`serde_json::to_string` on the
`String → f64` map of a batch). -/
def SpecsSerializer := List (String × Rat) → Except String String

/-- `Database::insert_inventory_batch`, parametrised by the specs serializer:
if serialization fails the error is mapped to `ToSqlConversionFailure` and
the statement is never executed; otherwise one row with all batch fields is
inserted and the assigned rowid returned. The returned `DB` is the state
after the call. -/
def insert_inventory_batch (ser : SpecsSerializer) (db : DB) (b : InventoryBatch) :
    Except SqlError Int × DB :=
  match ser b.specs with
  | .error _ => (.error .toSqlConversionFailure, db)
  | .ok specs_str =>
    let id := nextId (db.inventory_batches.map BatchRow.id)
    (.ok id,
      { db with
        inventory_batches := db.inventory_batches ++
          [{ id := id, name := b.name, type_id := b.type_id, grade_id := b.grade_id,
             stage_id := b.stage_id, weight := b.weight, price := b.price,
             specs_json := specs_str }],
        last_insert_rowid := id })

/-- JSON rendering of the specs map used by the concrete serializer stand-in;
no store operation ever reads this text back, so only its existence matters. -/
def encSpecsJson (m : List (String × Rat)) : String :=
  String.mk (Char.ofNat 123 ::
    sepComma (m.map (fun kv => encStr kv.1 ++ ':' :: (toString kv.2).data)) ++
    [Char.ofNat 125])

/-- The concrete specs serializer: `serde_json::to_string` on a map from
strings to floats always succeeds (non-finite floats serialize as `null`), so
the model always returns `.ok`. -/
def serdeSpecs : SpecsSerializer := fun m => .ok (encSpecsJson m)

/-- `SUM(weight)` in SQL: `NULL` over an empty row set, the sum otherwise. -/
def sqlSum (ws : List Rat) : Option Rat :=
  if ws.isEmpty then none else some ws.sum

/-- `Database::aggregate_stage_totals`: `SELECT COALESCE(SUM(weight), 0.0),
COUNT(*) FROM inventory_batches WHERE stage_id = ?1`. -/
def aggregate_stage_totals (db : DB) (stage_id : Int) : Except SqlError (Rat × Nat) :=
  let rows := db.inventory_batches.filter (fun b => b.stage_id = stage_id)
  .ok ((sqlSum (rows.map BatchRow.weight)).getD 0, rows.length)

/-- `Database::insert_stage`: `INSERT OR IGNORE INTO stages (name)`, then
`Ok(conn.last_insert_rowid())`. When the name exists the insert is skipped and
the stale `last_insert_rowid` is returned. -/
def insert_stage (db : DB) (nm : String) : Int × DB :=
  if db.stages.any (fun r => r.2 = nm) then
    (db.last_insert_rowid, db)
  else
    let id := nextId (db.stages.map Prod.fst)
    (id, { db with stages := db.stages ++ [(id, nm)], last_insert_rowid := id })

/-- `Database::insert_grade`: `INSERT OR IGNORE INTO grades (name)`. -/
def insert_grade (db : DB) (nm : String) : Int × DB :=
  if db.grades.any (fun r => r.2 = nm) then
    (db.last_insert_rowid, db)
  else
    let id := nextId (db.grades.map Prod.fst)
    (id, { db with grades := db.grades ++ [(id, nm)], last_insert_rowid := id })

/-- Insertion into a list sorted by ascending id. -/
def insertSorted (r : Int × α) : List (Int × α) → List (Int × α)
  | [] => [r]
  | s :: t => if r.1 ≤ s.1 then r :: s :: t else s :: insertSorted r t

/-- `ORDER BY id ASC` as an insertion sort on the id column. -/
def sortById : List (Int × α) → List (Int × α)
  | [] => []
  | r :: t => insertSorted r (sortById t)

/-- `Database::get_all_stages`: `SELECT id, name FROM stages ORDER BY id
ASC`. -/
def get_all_stages (db : DB) : List (Int × String) := sortById db.stages

/-- `Database::get_all_grades`: `SELECT id, name FROM grades ORDER BY id
ASC`. -/
def get_all_grades (db : DB) : List (Int × String) := sortById db.grades

/-- `Database::insert_product_type`: serializes the key list with serde_json
(total on `Vec<String>`), then `INSERT OR IGNORE INTO product_types (name,
specs_keys_json)`. -/
def insert_product_type (db : DB) (nm : String) (specs_keys : List String) :
    Int × DB :=
  let specs_json := encKeys specs_keys
  if db.product_types.any (fun r => r.2.1 = nm) then
    (db.last_insert_rowid, db)
  else
    let id := nextId (db.product_types.map Prod.fst)
    (id,
      { db with
        product_types := db.product_types ++ [(id, nm, specs_json)],
        last_insert_rowid := id })

/-- `Database::get_all_product_types`: `SELECT id, name, specs_keys_json FROM
product_types ORDER BY id ASC`, deserializing the key list per row with
`serde_json::from_str(…).unwrap_or_default()` — a row whose stored form does
not parse yields the empty key list instead of an error. -/
def get_all_product_types (db : DB) : List (Int × String × List String) :=
  (sortById db.product_types).map (fun r => (r.1, r.2.1, (decodeKeys r.2.2).getD []))

/-! ## `model.rs` -/

/-- `model.rs`'s `Model`: the application state holding the database handle. -/
structure Model where
  db : DB

/-- `Model::aggregate_stage`, parametrised by the query it matches on (the
program passes `aggregate_stage_totals`; the parameter keeps the `Err` branch
of the match exercisable, as a failing rusqlite statement would): an `Ok` pair
is returned as is, an `Err` is logged and replaced by `(0.0, 0)`. -/
def Model.aggregate_stage_with (q : DB → Int → Except SqlError (Rat × Nat))
    (m : Model) (stage_id : Int) : Rat × Nat :=
  match q m.db stage_id with
  | .ok p => p
  | .error _ => (0, 0)

/-- `Model::aggregate_stage` with the program's actual query. -/
def Model.aggregate_stage (m : Model) (stage_id : Int) : Rat × Nat :=
  m.aggregate_stage_with aggregate_stage_totals stage_id

/-! ## Reachable states -/

/-- One store operation, as a relation between the state before and after the
call. Read-only operations do not change the state and need no constructor. -/
inductive Step : DB → DB → Prop where
  | seed (db db' : DB) : seed_defaults db = .ok db' → Step db db'
  | insertStage (db : DB) (nm : String) : Step db (insert_stage db nm).2
  | insertGrade (db : DB) (nm : String) : Step db (insert_grade db nm).2
  | insertProductType (db : DB) (nm : String) (ks : List String) :
      Step db (insert_product_type db nm ks).2
  | insertBatch (ser : SpecsSerializer) (db : DB) (b : InventoryBatch) :
      Step db (insert_inventory_batch ser db b).2

/-- Database states reachable from a fresh store through store operations. -/
inductive Reachable : DB → Prop where
  | base : Reachable DB.openEmpty
  | step {db db' : DB} : Reachable db → Step db db' → Reachable db'

/-- Name uniqueness of the two classification tables with a `UNIQUE(name)`
column exercised by duplicate inserts. -/
def NamesUnique (db : DB) : Prop :=
  (db.stages.map Prod.snd).Nodup ∧ (db.grades.map Prod.snd).Nodup

/-- Ascending-id ordering of a table's physical row list. -/
def sortedIds {α : Type} (t : List (Int × α)) : Prop :=
  t.Pairwise (fun a b => a.1 < b.1)

/-- The four default stage rows produced by seeding an empty store. -/
def defaultStages : List (Int × String) :=
  [(1, "Unbucked"), (2, "Bucked"), (3, "Rolled"), (4, "Processed")]

/-- The four default grade rows produced by seeding an empty store. -/
def defaultGrades : List (Int × String) :=
  [(1, "A"), (2, "B"), (3, "C"), (4, "Trim")]

/-- The store state after opening a fresh file and seeding the defaults. -/
def seededDB : DB :=
  { DB.openEmpty with
    stages := defaultStages, grades := defaultGrades, last_insert_rowid := 4 }

/-- A sample batch used to exercise the insert operations on concrete
inputs. -/
def sampleBatch : InventoryBatch :=
  { name := "B", type_id := 1, grade_id := 1, stage_id := 1,
    weight := 2, price := 3, specs := [] }

/-- A store holding three batches of weights 10, 5/2 and 0 at stage 5, the
spec's aggregation example. -/
def threeBatchDB : DB :=
  { DB.openEmpty with
    inventory_batches :=
      [{ id := 1, name := "a", type_id := 0, grade_id := 0, stage_id := 5,
         weight := 10, price := 1, specs_json := "" },
       { id := 2, name := "b", type_id := 0, grade_id := 0, stage_id := 5,
         weight := 5 / 2, price := 1, specs_json := "" },
       { id := 3, name := "c", type_id := 0, grade_id := 0, stage_id := 5,
         weight := 0, price := 1, specs_json := "" }] }

/-- A product-types table holding one row whose stored key list does not
parse next to one intact row. -/
def corruptPTDB : DB :=
  { DB.openEmpty with
    product_types := [(1, "Broken", "oops"), (2, "Good", encKeys ["THC"])] }

/-! ## Auxiliary lemmas: rowid assignment and `ORDER BY` -/

theorem le_foldl_max (l : List Int) (i : Int) : i ≤ l.foldl max i := by
  induction l generalizing i with
  | nil => simp
  | cons a t ih => exact le_trans (le_max_left i a) (ih (max i a))

theorem mem_le_foldl_max {l : List Int} {x : Int} (h : x ∈ l) (i : Int) :
    x ≤ l.foldl max i := by
  induction l generalizing i with
  | nil => cases h
  | cons a t ih =>
    rcases List.mem_cons.mp h with rfl | hx
    · exact le_trans (le_max_right i x) (le_foldl_max t (max i x))
    · exact ih hx (max i a)

/-- Every row id in a table is below the rowid SQLite assigns next. -/
theorem lt_nextId {α : Type} {t : List (Int × α)} {r : Int × α} (h : r ∈ t) :
    r.1 < nextId (t.map Prod.fst) := by
  have := mem_le_foldl_max (List.mem_map_of_mem Prod.fst h) 0
  unfold nextId
  omega

/-- Appending a freshly assigned rowid keeps the physical order ascending. -/
theorem sortedIds_append {α : Type} {t : List (Int × α)} (h : sortedIds t) (x : α) :
    sortedIds (t ++ [(nextId (t.map Prod.fst), x)]) := by
  unfold sortedIds at h ⊢
  rw [List.pairwise_append]
  refine ⟨h, List.pairwise_singleton _ _, ?_⟩
  intro a ha b hb
  rcases List.mem_singleton.mp hb with rfl
  exact lt_nextId ha

theorem mem_insertSorted {α : Type} {a r : Int × α} {l : List (Int × α)} :
    a ∈ insertSorted r l ↔ a = r ∨ a ∈ l := by
  induction l with
  | nil => simp [insertSorted]
  | cons s t ih =>
    simp only [insertSorted]
    split
    · simp [List.mem_cons]
    · simp [List.mem_cons, ih]
      tauto

theorem mem_sortById {α : Type} {a : Int × α} {l : List (Int × α)} :
    a ∈ sortById l ↔ a ∈ l := by
  induction l with
  | nil => simp [sortById]
  | cons r t ih =>
    simp [sortById, mem_insertSorted, ih, List.mem_cons]

/-- Sorting by id is the identity on a table that is already in ascending id
order. -/
theorem sortById_of_sorted {α : Type} {t : List (Int × α)} (h : sortedIds t) :
    sortById t = t := by
  induction t with
  | nil => rfl
  | cons r t ih =>
    have hp := List.pairwise_cons.mp h
    rw [sortById, ih hp.2]
    cases t with
    | nil => rfl
    | cons s t2 =>
      have hrs : r.1 < s.1 := hp.1 s (by simp)
      simp [insertSorted, le_of_lt hrs]

/-! ## Auxiliary lemmas: seeding -/

theorem except_bind_ok {α β ε : Type} (a : α) (f : α → Except ε β) :
    (Except.ok a >>= f) = f a := rfl

theorem seedStages_run (fk : Bool) (gr : List (Int × String))
    (pt : List (Int × String × String)) (ib : List BatchRow) (lr : Int) :
    (["Unbucked", "Bucked", "Rolled", "Processed"].foldlM insertStageRaw
        ⟨fk, [], gr, pt, ib, lr⟩ : Except SqlError DB) =
      .ok ⟨fk, defaultStages, gr, pt, ib, 4⟩ := rfl

theorem seedGrades_run (fk : Bool) (st : List (Int × String))
    (pt : List (Int × String × String)) (ib : List BatchRow) (lr : Int) :
    (["A", "B", "C", "Trim"].foldlM insertGradeRaw
        ⟨fk, st, [], pt, ib, lr⟩ : Except SqlError DB) =
      .ok ⟨fk, st, defaultGrades, pt, ib, 4⟩ := rfl

/-- Full characterization of `seed_defaults`: each classification table is
seeded exactly when it is empty, and nothing else changes (besides the rowid
register when a seed ran). -/
theorem seed_defaults_spec (db : DB) :
    seed_defaults db = .ok
      { db with
        stages := if db.stages = [] then defaultStages else db.stages,
        grades := if db.grades = [] then defaultGrades else db.grades,
        last_insert_rowid :=
          if db.grades = [] then 4
          else if db.stages = [] then 4
          else db.last_insert_rowid } := by
  obtain ⟨fk, st, gr, pt, ib, lr⟩ := db
  by_cases hs : st = [] <;> by_cases hg : gr = []
  · subst hs; subst hg; rfl
  · subst hs
    have hg0 : ¬(gr.length = 0) := by simpa [List.length_eq_zero] using hg
    simp only [seed_defaults, List.length_nil, if_pos rfl, seedStages_run,
      except_bind_ok, hg0, if_neg, hg]
    rfl
  · subst hg
    have hs0 : ¬(st.length = 0) := by simpa [List.length_eq_zero] using hs
    simp only [seed_defaults, hs0, if_neg, except_bind_ok, List.length_nil,
      if_pos rfl, seedGrades_run, hs]
    rfl
  · have hs0 : ¬(st.length = 0) := by simpa [List.length_eq_zero] using hs
    have hg0 : ¬(gr.length = 0) := by simpa [List.length_eq_zero] using hg
    simp only [seed_defaults, hs0, hg0, if_neg, except_bind_ok, hs, hg]
    simp

/-- A state in which both classification tables are non-empty is a fixed
point of `seed_defaults`. -/
theorem seed_defaults_fixpoint {db : DB} (hs : db.stages ≠ []) (hg : db.grades ≠ []) :
    seed_defaults db = .ok db := by
  have h := seed_defaults_spec db
  simpa [hs, hg] using h

theorem seedIter_fixpoint {db : DB} (h : seed_defaults db = .ok db) :
    ∀ n, seedIter n db = .ok db := by
  intro n
  induction n with
  | zero => rfl
  | succ n ih => simp only [seedIter, h, except_bind_ok, ih]

/-! ## Auxiliary lemmas: the JSON key-list codec round trip -/

theorem hexVal_hexDigitChar (k : Nat) (hk : k < 16) :
    hexVal (hexDigitChar k) = some k := by
  interval_cases k <;> decide

theorem string_mk_data (s : String) : String.mk s.data = s := rfl

theorem skipWs_cons_not_ws {c : Char} (h : isWs c = false) (r : List Char) :
    skipWs (c :: r) = c :: r := by
  simp [skipWs, h]

theorem escChar_length_pos (c : Char) : 1 ≤ (escChar c).length := by
  unfold escChar
  split_ifs <;> simp

theorem length_le_flatten_escChar (l : List Char) :
    l.length ≤ ((l.map escChar).flatten).length := by
  induction l with
  | nil => simp
  | cons c t ih =>
    have := escChar_length_pos c
    simp only [List.map_cons, List.flatten_cons, List.length_append, List.length_cons]
    omega

/-- One encoded character parses back to itself, whatever follows. -/
theorem parseStrBody_escChar {fuel : Nat} {rest s r : List Char} (c : Char)
    (h : parseStrBody fuel rest = some (s, r)) :
    parseStrBody (fuel + 1) (escChar c ++ rest) = some (c :: s, r) := by
  by_cases h1 : c = '"'
  · subst h1
    simp [escChar, parseStrBody, escAbbrev, h]
  by_cases h2 : c = '\\'
  · subst h2
    simp [escChar, parseStrBody, escAbbrev, h]
  by_cases h3 : c.toNat = 8
  · obtain rfl : c = Char.ofNat 8 := by rw [← h3, Char.ofNat_toNat]
    simp [escChar, parseStrBody, escAbbrev, h]
  by_cases h4 : c.toNat = 9
  · obtain rfl : c = Char.ofNat 9 := by rw [← h4, Char.ofNat_toNat]
    simp [escChar, parseStrBody, escAbbrev, h]
  by_cases h5 : c.toNat = 10
  · obtain rfl : c = Char.ofNat 10 := by rw [← h5, Char.ofNat_toNat]
    simp [escChar, parseStrBody, escAbbrev, h]
  by_cases h6 : c.toNat = 12
  · obtain rfl : c = Char.ofNat 12 := by rw [← h6, Char.ofNat_toNat]
    simp [escChar, parseStrBody, escAbbrev, h]
  by_cases h7 : c.toNat = 13
  · obtain rfl : c = Char.ofNat 13 := by rw [← h7, Char.ofNat_toNat]
    simp [escChar, parseStrBody, escAbbrev, h]
  by_cases hlt : c.toNat < 32
  · have hz : hexVal '0' = some 0 := by decide
    have hd1 : hexVal (hexDigitChar (c.toNat / 16)) = some (c.toNat / 16) :=
      hexVal_hexDigitChar _ (by omega)
    have hd2 : hexVal (hexDigitChar (c.toNat % 16)) = some (c.toNat % 16) :=
      hexVal_hexDigitChar _ (by omega)
    have hn : c.toNat / 16 * 16 + c.toNat % 16 = c.toNat := by omega
    have hor : c.toNat < 55296 ∨ 57344 ≤ c.toNat := Or.inl (by omega)
    have hc : Char.ofNat c.toNat = c := Char.ofNat_toNat c
    simp [escChar, h1, h2, h3, h4, h5, h6, h7, hlt, parseStrBody, hz, hd1, hd2,
      hn, hor, hc, h]
  · simp [escChar, h1, h2, h3, h4, h5, h6, h7, hlt, parseStrBody, h]

/-- The encoded body of a string, followed by the closing quote, parses back
to the original character list at any sufficient fuel. -/
theorem parseStrBody_enc (s : List Char) (r : List Char) :
    ∀ fuel, s.length + 1 ≤ fuel →
      parseStrBody fuel ((s.map escChar).flatten ++ '"' :: r) = some (s, r) := by
  induction s with
  | nil =>
    intro fuel hf
    obtain ⟨f, rfl⟩ : ∃ f, fuel = f + 1 := ⟨fuel - 1, by omega⟩
    simp [parseStrBody]
  | cons c s ih =>
    intro fuel hf
    obtain ⟨f, rfl⟩ : ∃ f, fuel = f + 1 := ⟨fuel - 1, by omega⟩
    rw [List.map_cons, List.flatten_cons, List.append_assoc]
    exact parseStrBody_escChar c (ih f (by simp at hf ⊢; omega))

/-- A full encoded string literal parses back to the original string's
characters, whatever follows the closing quote. -/
theorem parseJString_enc (x : String) (r : List Char) :
    parseJString (encStr x ++ r) = some (x.data, r) := by
  have hx : encStr x ++ r = '"' :: ((x.data.map escChar).flatten ++ '"' :: r) := by
    simp [encStr]
  rw [hx]
  simp only [parseJString, if_pos]
  refine parseStrBody_enc x.data r _ ?_
  have := length_le_flatten_escChar x.data
  simp only [List.length_append, List.length_cons]
  omega

theorem sepComma_encStr_head (y : String) (ks : List String) :
    ∃ t, sepComma ((y :: ks).map encStr) = '"' :: t := by
  cases ks with
  | nil => exact ⟨_, rfl⟩
  | cons z ks => exact ⟨_, rfl⟩

theorem skipWs_sepComma_encStr (y : String) (ks : List String) (r2 : List Char) :
    skipWs (sepComma ((y :: ks).map encStr) ++ r2) =
      sepComma ((y :: ks).map encStr) ++ r2 := by
  obtain ⟨t, ht⟩ := sepComma_encStr_head y ks
  rw [ht, List.cons_append]
  exact skipWs_cons_not_ws (by decide) _

theorem length_le_sepComma_encStr (x : String) (ks : List String) :
    (x :: ks).length ≤ (sepComma ((x :: ks).map encStr)).length := by
  induction ks generalizing x with
  | nil =>
    simp [sepComma, encStr]
  | cons y ks ih =>
    have h := ih y
    have hx : 2 ≤ (encStr x).length := by simp [encStr]
    simp only [List.map_cons, sepComma, List.length_append, List.length_cons] at *
    omega

/-- The encoded items of a non-empty array, followed by the closing bracket,
parse back to the original strings at any sufficient fuel. -/
theorem parseItems_enc (ks : List String) :
    ∀ (x : String) (r : List Char) (fuel : Nat), ks.length + 1 ≤ fuel →
      parseItems fuel (sepComma ((x :: ks).map encStr) ++ ']' :: r) =
        some (x :: ks, r) := by
  induction ks with
  | nil =>
    intro x r fuel hf
    obtain ⟨f, rfl⟩ : ∃ f, fuel = f + 1 := ⟨fuel - 1, by omega⟩
    show parseItems (f + 1) (encStr x ++ ']' :: r) = some ([x], r)
    simp only [parseItems, parseJString_enc x (']' :: r)]
    rw [skipWs_cons_not_ws (by decide)]
    simp
  | cons y ks ih =>
    intro x r fuel hf
    obtain ⟨f, rfl⟩ : ∃ f, fuel = f + 1 := ⟨fuel - 1, by omega⟩
    have hrw : sepComma ((x :: y :: ks).map encStr) ++ ']' :: r =
        encStr x ++ ',' :: (sepComma ((y :: ks).map encStr) ++ ']' :: r) := by
      simp [sepComma, List.append_assoc]
    have hski : skipWs (sepComma ((y :: ks).map encStr) ++ ']' :: r) =
        sepComma ((y :: ks).map encStr) ++ ']' :: r :=
      skipWs_sepComma_encStr y ks (']' :: r)
    have hih : parseItems f (sepComma ((y :: ks).map encStr) ++ ']' :: r) =
        some (y :: ks, r) := ih y r f (by simp at hf ⊢; omega)
    rw [hrw]
    simp only [List.map_cons] at hski hih
    simp [parseItems, parseJString_enc x,
      skipWs_cons_not_ws (show isWs ',' = false by decide), hski, hih, string_mk_data]

/-- Round trip of the key-list codec: deserialization inverts serialization
on every list of key strings. -/
theorem decodeKeys_encKeys (ks : List String) : decodeKeys (encKeys ks) = some ks := by
  cases ks with
  | nil => rfl
  | cons x ks =>
    obtain ⟨t, ht⟩ := sepComma_encStr_head x ks
    have hlen := length_le_sepComma_encStr x ks
    rw [ht] at hlen
    have h3 : skipWs (sepComma ((x :: ks).map encStr) ++ [']']) =
        sepComma ((x :: ks).map encStr) ++ [']'] := skipWs_sepComma_encStr x ks [']']
    have h4 : sepComma ((x :: ks).map encStr) ++ [']'] = '"' :: (t ++ [']']) := by
      rw [ht]; simp
    have h5 : parseItems ((t ++ [']']).length + 2)
        (sepComma ((x :: ks).map encStr) ++ [']']) = some (x :: ks, []) :=
      parseItems_enc ks x [] _ (by simp at hlen ⊢; omega)
    show decodeArrayTail (skipWs (sepComma ((x :: ks).map encStr) ++ [']'])) =
      some (x :: ks)
    rw [h3, h4]
    show (match parseItems ((t ++ [']']).length + 2) ('"' :: (t ++ [']'])) with
      | some (ss, rr) => if skipWs rr = [] then some ss else none
      | none => none) = some (x :: ks)
    rw [← h4, h5]
    rfl

/-- Reading the listing maps each stored row through the lenient key-list
decoder; membership is independent of the `ORDER BY` sort. -/
theorem mem_get_all_product_types {db : DB} {id : Int} {nm j : String}
    (h : (id, nm, j) ∈ db.product_types) :
    (id, nm, (decodeKeys j).getD []) ∈ get_all_product_types db := by
  unfold get_all_product_types
  exact List.mem_map_of_mem _ (mem_sortById.mpr h)

/-! ## Auxiliary lemmas: duplicate inserts and state invariants -/

theorem insert_stage_of_mem {db : DB} {nm : String} (h : nm ∈ db.stages.map Prod.snd) :
    insert_stage db nm = (db.last_insert_rowid, db) := by
  have hany : db.stages.any (fun r => r.2 = nm) = true := by
    obtain ⟨r, hr, hrn⟩ := List.mem_map.mp h
    exact List.any_eq_true.mpr ⟨r, hr, by simp [hrn]⟩
  unfold insert_stage
  rw [if_pos hany]

theorem insert_grade_of_mem {db : DB} {nm : String} (h : nm ∈ db.grades.map Prod.snd) :
    insert_grade db nm = (db.last_insert_rowid, db) := by
  have hany : db.grades.any (fun r => r.2 = nm) = true := by
    obtain ⟨r, hr, hrn⟩ := List.mem_map.mp h
    exact List.any_eq_true.mpr ⟨r, hr, by simp [hrn]⟩
  unfold insert_grade
  rw [if_pos hany]

/-- Every store operation keeps both classification tables in ascending id
order. -/
theorem step_sorted {db db' : DB} (st : Step db db')
    (hs : sortedIds db.stages) (hg : sortedIds db.grades) :
    sortedIds db'.stages ∧ sortedIds db'.grades := by
  cases st with
  | seed _ _ hseed =>
    have hc := seed_defaults_spec db
    rw [hseed] at hc
    injection hc with hc
    subst hc
    refine ⟨?_, ?_⟩
    · show sortedIds (if db.stages = [] then defaultStages else db.stages)
      by_cases h1 : db.stages = []
      · rw [if_pos h1]
        exact (by decide : defaultStages.Pairwise (fun a b => a.1 < b.1))
      · rw [if_neg h1]; exact hs
    · show sortedIds (if db.grades = [] then defaultGrades else db.grades)
      by_cases h1 : db.grades = []
      · rw [if_pos h1]
        exact (by decide : defaultGrades.Pairwise (fun a b => a.1 < b.1))
      · rw [if_neg h1]; exact hg
  | insertStage _ nm =>
    unfold insert_stage
    split
    · exact ⟨hs, hg⟩
    · exact ⟨sortedIds_append hs nm, hg⟩
  | insertGrade _ nm =>
    unfold insert_grade
    split
    · exact ⟨hs, hg⟩
    · exact ⟨hs, sortedIds_append hg nm⟩
  | insertProductType _ nm ks =>
    unfold insert_product_type
    split
    · exact ⟨hs, hg⟩
    · exact ⟨hs, hg⟩
  | insertBatch ser _ b =>
    cases hsb : ser b.specs with
    | error e => simp only [insert_inventory_batch, hsb]; exact ⟨hs, hg⟩
    | ok s => simp only [insert_inventory_batch, hsb]; exact ⟨hs, hg⟩

/-- Every reachable state has both classification tables in ascending id
order. -/
theorem reachable_sorted {db : DB} (h : Reachable db) :
    sortedIds db.stages ∧ sortedIds db.grades := by
  induction h with
  | base => exact ⟨List.Pairwise.nil, List.Pairwise.nil⟩
  | step hr hstep ih => exact step_sorted hstep ih.1 ih.2

/-- Every store operation preserves name uniqueness of the stages and grades
tables. -/
theorem step_names_unique {db db' : DB} (st : Step db db') (h : NamesUnique db) :
    NamesUnique db' := by
  obtain ⟨h1, h2⟩ := h
  cases st with
  | seed _ _ hseed =>
    have hc := seed_defaults_spec db
    rw [hseed] at hc
    injection hc with hc
    subst hc
    refine ⟨?_, ?_⟩
    · show ((if db.stages = [] then defaultStages else db.stages).map Prod.snd).Nodup
      by_cases hb : db.stages = []
      · rw [if_pos hb]; decide
      · rw [if_neg hb]; exact h1
    · show ((if db.grades = [] then defaultGrades else db.grades).map Prod.snd).Nodup
      by_cases hb : db.grades = []
      · rw [if_pos hb]; decide
      · rw [if_neg hb]; exact h2
  | insertStage _ nm =>
    unfold insert_stage
    split
    · exact ⟨h1, h2⟩
    · next hany =>
      refine ⟨?_, h2⟩
      show ((db.stages ++ [(nextId (db.stages.map Prod.fst), nm)]).map Prod.snd).Nodup
      have hnm : nm ∉ db.stages.map Prod.snd := by
        intro hmem
        obtain ⟨r, hr, hrn⟩ := List.mem_map.mp hmem
        exact hany (List.any_eq_true.mpr ⟨r, hr, by simp [hrn]⟩)
      simp [List.map_append, List.nodup_append, h1, hnm]
  | insertGrade _ nm =>
    unfold insert_grade
    split
    · exact ⟨h1, h2⟩
    · next hany =>
      refine ⟨h1, ?_⟩
      show ((db.grades ++ [(nextId (db.grades.map Prod.fst), nm)]).map Prod.snd).Nodup
      have hnm : nm ∉ db.grades.map Prod.snd := by
        intro hmem
        obtain ⟨r, hr, hrn⟩ := List.mem_map.mp hmem
        exact hany (List.any_eq_true.mpr ⟨r, hr, by simp [hrn]⟩)
      simp [List.map_append, List.nodup_append, h2, hnm]
  | insertProductType _ nm ks =>
    unfold insert_product_type
    split
    · exact ⟨h1, h2⟩
    · exact ⟨h1, h2⟩
  | insertBatch ser _ b =>
    cases hsb : ser b.specs with
    | error e => simp only [insert_inventory_batch, hsb]; exact ⟨h1, h2⟩
    | ok s => simp only [insert_inventory_batch, hsb]; exact ⟨h1, h2⟩

/-! ## The claims -/

/-- C1: on a store whose stages and grades tables are both empty,
`seed_defaults` succeeds and inserts exactly the stages Unbucked, Bucked,
Rolled, Processed and the grades A, B, C, Trim, in that order (ids 1–4 in
insertion order), touching no other table; and any further call, iterated any
number of times, performs no writes and leaves both tables — indeed the whole
state — unchanged. -/
theorem C1_seed_defaults_baseline (db : DB)
    (hs : db.stages = []) (hg : db.grades = []) :
    seed_defaults db = .ok
      { db with
        stages := defaultStages, grades := defaultGrades, last_insert_rowid := 4 } ∧
    ∀ (n : Nat) (db' : DB), seed_defaults db = .ok db' → seedIter n db' = .ok db' := by
  have hmain : seed_defaults db = .ok
      { db with
        stages := defaultStages, grades := defaultGrades, last_insert_rowid := 4 } := by
    simpa [hs, hg] using seed_defaults_spec db
  refine ⟨hmain, ?_⟩
  intro n db' hdb'
  rw [hmain] at hdb'
  injection hdb' with hdb'
  subst hdb'
  exact seedIter_fixpoint
    (seed_defaults_fixpoint (by simp [defaultStages]) (by simp [defaultGrades])) n

theorem C1_seed_defaults_baseline_witness :
    seed_defaults DB.openEmpty = .ok seededDB ∧ seedIter 3 seededDB = .ok seededDB := by
  have h := C1_seed_defaults_baseline DB.openEmpty rfl rfl
  exact ⟨h.1, h.2 3 seededDB h.1⟩

/-- C2: inserting a name already present in the stages (resp. grades) table
succeeds (the embedded operation is total, as `INSERT OR IGNORE` never
errors on a duplicate), adds no row and leaves the whole state unchanged, so
the listing length does not grow; and every store operation preserves name
uniqueness within each table. -/
theorem C2_duplicate_insert_noop (db : DB) (nm : String) :
    (nm ∈ db.stages.map Prod.snd →
      insert_stage db nm = (db.last_insert_rowid, db) ∧
      (get_all_stages (insert_stage db nm).2).length = (get_all_stages db).length) ∧
    (nm ∈ db.grades.map Prod.snd →
      insert_grade db nm = (db.last_insert_rowid, db) ∧
      (get_all_grades (insert_grade db nm).2).length = (get_all_grades db).length) ∧
    ∀ db', Step db db' → NamesUnique db → NamesUnique db' := by
  refine ⟨?_, ?_, ?_⟩
  · intro h
    have he := insert_stage_of_mem h
    exact ⟨he, by rw [he]⟩
  · intro h
    have he := insert_grade_of_mem h
    exact ⟨he, by rw [he]⟩
  · intro db' st h
    exact step_names_unique st h

theorem C2_duplicate_insert_noop_witness :
    insert_stage seededDB "Bucked" = (seededDB.last_insert_rowid, seededDB) ∧
    NamesUnique (insert_stage seededDB "Drying").2 := by
  constructor
  · exact ((C2_duplicate_insert_noop seededDB "Bucked").1 (by decide)).1
  · exact (C2_duplicate_insert_noop seededDB "Drying").2.2 _
      (Step.insertStage seededDB "Drying") ⟨by decide, by decide⟩

/-- C3: for every stage id, `aggregate_stage_totals` returns `.ok` of the
pair (sum of `weight` over exactly the batches whose `stage_id` equals the
argument, count of those batches); when no batch matches — any unused or
never-inserted stage id included — it returns `.ok (0, 0)`, never an error
and never a null. -/
theorem C3_aggregate_stage_totals_sum_count (db : DB) (sid : Int) :
    aggregate_stage_totals db sid =
      .ok (((db.inventory_batches.filter (fun b => b.stage_id = sid)).map
              BatchRow.weight).sum,
        (db.inventory_batches.filter (fun b => b.stage_id = sid)).length) ∧
    ((∀ b ∈ db.inventory_batches, b.stage_id ≠ sid) →
      aggregate_stage_totals db sid = .ok (0, 0)) := by
  constructor
  · by_cases he : db.inventory_batches.filter (fun b => b.stage_id = sid) = []
    · simp [aggregate_stage_totals, sqlSum, he]
    · simp [aggregate_stage_totals, sqlSum, he]
  · intro h
    have he : db.inventory_batches.filter (fun b => b.stage_id = sid) = [] := by
      simp only [List.filter_eq_nil_iff, decide_eq_true_eq]
      exact h
    simp [aggregate_stage_totals, sqlSum, he]

theorem C3_aggregate_stage_totals_sum_count_witness :
    aggregate_stage_totals threeBatchDB 5 = .ok (25 / 2, 3) ∧
    aggregate_stage_totals threeBatchDB 9 = .ok (0, 0) := by
  constructor
  · have h := (C3_aggregate_stage_totals_sum_count threeBatchDB 5).1
    rw [h]
    norm_num [threeBatchDB]
  · exact (C3_aggregate_stage_totals_sum_count threeBatchDB 9).2 (by decide)

/-- C4: the key-list codec round-trips (deserialization inverts
serialization on every ordered list of key strings), and inserting a product
type under a fresh name then listing yields a row for that name whose key
sequence is exactly the inserted list, in the same order. -/
theorem C4_product_type_key_roundtrip (db : DB) (nm : String) (ks : List String)
    (h : nm ∉ db.product_types.map (fun r => r.2.1)) :
    decodeKeys (encKeys ks) = some ks ∧
    ∃ id, (id, nm, ks) ∈ get_all_product_types (insert_product_type db nm ks).2 := by
  refine ⟨decodeKeys_encKeys ks, ?_⟩
  have hany : db.product_types.any (fun r => r.2.1 = nm) = false := by
    rw [List.any_eq_false]
    intro r hr
    simp only [decide_eq_true_eq]
    intro heq
    exact h (List.mem_map.mpr ⟨r, hr, heq⟩)
  refine ⟨nextId (db.product_types.map Prod.fst), ?_⟩
  have hmem : (nextId (db.product_types.map Prod.fst), nm, encKeys ks) ∈
      (insert_product_type db nm ks).2.product_types := by
    simp [insert_product_type, hany]
  have hres := mem_get_all_product_types hmem
  rw [decodeKeys_encKeys] at hres
  simpa using hres

theorem C4_product_type_key_roundtrip_witness :
    decodeKeys (encKeys ["THC", "Terpenes"]) = some ["THC", "Terpenes"] ∧
    ∃ id, (id, "Blue Dream", ["THC", "Terpenes"]) ∈
      get_all_product_types
        (insert_product_type DB.openEmpty "Blue Dream" ["THC", "Terpenes"]).2 :=
  C4_product_type_key_roundtrip DB.openEmpty "Blue Dream" ["THC", "Terpenes"]
    (by simp [DB.openEmpty])

/-- C5: whenever serialization of the specs map fails, the insert surfaces
`ToSqlConversionFailure` and writes nothing: the returned state is exactly
the state before the call, every table included. -/
theorem C5_serialization_failure_no_write (ser : SpecsSerializer) (db : DB)
    (b : InventoryBatch) (e : String) (h : ser b.specs = .error e) :
    insert_inventory_batch ser db b = (.error .toSqlConversionFailure, db) := by
  unfold insert_inventory_batch
  rw [h]

theorem C5_serialization_failure_no_write_witness :
    insert_inventory_batch (fun _ => .error "not serializable") DB.openEmpty
      sampleBatch = (.error .toSqlConversionFailure, DB.openEmpty) :=
  C5_serialization_failure_no_write _ DB.openEmpty sampleBatch "not serializable" rfl

/-- C6: the listing is total, and each stored product-type row is returned:
with an empty key sequence when its stored key-list form does not parse, and
with its decoded key sequence otherwise — a corrupt row never raises an
error or aborts the listing of the other rows. -/
theorem C6_corrupt_row_lenient_read (db : DB) (id : Int) (nm j : String)
    (h : (id, nm, j) ∈ db.product_types) :
    (decodeKeys j = none → (id, nm, ([] : List String)) ∈ get_all_product_types db) ∧
    ∀ ks, decodeKeys j = some ks → (id, nm, ks) ∈ get_all_product_types db := by
  constructor
  · intro hj
    have hres := mem_get_all_product_types h
    rw [hj] at hres
    simpa using hres
  · intro ks hj
    have hres := mem_get_all_product_types h
    rw [hj] at hres
    simpa using hres

theorem C6_corrupt_row_lenient_read_witness :
    (1, "Broken", ([] : List String)) ∈ get_all_product_types corruptPTDB ∧
    (2, "Good", ["THC"]) ∈ get_all_product_types corruptPTDB := by
  constructor
  · exact (C6_corrupt_row_lenient_read corruptPTDB 1 "Broken" "oops"
      (by simp [corruptPTDB])).1 (by decide)
  · exact (C6_corrupt_row_lenient_read corruptPTDB 2 "Good" (encKeys ["THC"])
      (by simp [corruptPTDB])).2 ["THC"] (decodeKeys_encKeys ["THC"])

/-- C7: inserting a batch succeeds with a freshly assigned id for every state
and every batch — in particular whether or not its `type_id`, `grade_id` or
`stage_id` occur in the `product_types`, `grades` or `stages` tables — even
though the connection's foreign-key pragma is on at open, because the schema
declares no `REFERENCES` clause on those columns (the embedded insert
consults no other table). -/
theorem C7_no_referential_integrity (db : DB) (b : InventoryBatch) :
    DB.openEmpty.foreign_keys = true ∧
    ∃ db', insert_inventory_batch serdeSpecs db b =
      (.ok (nextId (db.inventory_batches.map BatchRow.id)), db') :=
  ⟨rfl, _, rfl⟩

/-- C8: on every reachable store state, `get_all_stages` and `get_all_grades`
return the full table contents in strictly ascending id order, which is the
physical insertion order, independent of the names. -/
theorem C8_listing_ascending_id_order (db : DB) (h : Reachable db) :
    get_all_stages db = db.stages ∧
    db.stages.Pairwise (fun a b => a.1 < b.1) ∧
    get_all_grades db = db.grades ∧
    db.grades.Pairwise (fun a b => a.1 < b.1) := by
  obtain ⟨hs, hg⟩ := reachable_sorted h
  exact ⟨sortById_of_sorted hs, hs, sortById_of_sorted hg, hg⟩

theorem C8_listing_ascending_id_order_witness :
    get_all_stages seededDB = seededDB.stages ∧
    seededDB.stages.Pairwise (fun a b => a.1 < b.1) ∧
    get_all_grades seededDB = seededDB.grades ∧
    seededDB.grades.Pairwise (fun a b => a.1 < b.1) :=
  C8_listing_ascending_id_order seededDB
    (Reachable.step Reachable.base (Step.seed DB.openEmpty seededDB rfl))

/-- C10: `Model::aggregate_stage` is the total fallback wrapper around the
aggregate query: it always returns a plain pair, forwarding an `Ok` pair
unchanged and turning any query failure into `(0, 0)` — the very value the
query returns on a stage with no batches, so a failure is indistinguishable
to the caller from an empty stage. -/
theorem C10_aggregate_stage_total_fallback
    (q : DB → Int → Except SqlError (Rat × Nat)) (m : Model) (sid : Int) :
    Model.aggregate_stage m sid =
      Model.aggregate_stage_with aggregate_stage_totals m sid ∧
    (∀ p, q m.db sid = .ok p → Model.aggregate_stage_with q m sid = p) ∧
    ∀ e, q m.db sid = .error e →
      Model.aggregate_stage_with q m sid = (0, 0) ∧
      Model.aggregate_stage_with q m sid =
        Model.aggregate_stage ⟨DB.openEmpty⟩ sid := by
  refine ⟨rfl, ?_, ?_⟩
  · intro p hp
    unfold Model.aggregate_stage_with
    rw [hp]
  · intro e he
    have h0 : Model.aggregate_stage_with q m sid = (0, 0) := by
      unfold Model.aggregate_stage_with
      rw [he]
    exact ⟨h0, by rw [h0]; rfl⟩

theorem C10_aggregate_stage_total_fallback_witness :
    Model.aggregate_stage_with (fun _ _ => Except.error SqlError.queryError)
      ⟨DB.openEmpty⟩ 7 = (0, 0) :=
  ((C10_aggregate_stage_total_fallback (fun _ _ => Except.error SqlError.queryError)
    ⟨DB.openEmpty⟩ 7).2.2 SqlError.queryError rfl).1

end URTledger
